import Mathlib

/-!
Shallow embedding of the Cursor-Usage-Monitor VS Code extension
(src/extension.ts) and proofs about its specification claims.

Modelling conventions:
* JSON documents are the inductive type `Json`; object fields keep their
  source enumeration order (JS object insertion order).
* JavaScript numbers are modelled as exact rationals extended with the
  special values NaN and positive/negative Infinity (`JsNum`); the rounding
  of IEEE doubles is abstracted away, which the spec itself licenses by
  stating numeric equalities "to floating precision".
* JS `undefined` is `Option.none`; JS `null` is the JSON value `Json.null`.
* External library calls (`Number(...)` string conversion, `String.trim`,
  `toLowerCase`, `includes`) are modelled by executable Lean functions that
  follow the ECMAScript definitions on the ASCII fragment.
* `Intl.NumberFormat` rendering is abstracted to a structured value
  recording the style (currency vs plain), the amount passed to the
  formatter, and the `maximumFractionDigits` option from the source.
-/

namespace CursorUsage

/-- JSON value, as produced by `JSON.parse`. Object entries keep
enumeration order. -/
inductive Json where
  | null : Json
  | bool (b : Bool) : Json
  | num (q : ℚ) : Json
  | str (s : String) : Json
  | arr (elems : List Json) : Json
  | obj (entries : List (String × Json)) : Json
deriving Repr

/-- A JavaScript number: an exact rational, or one of the IEEE special
values NaN / +Infinity / -Infinity. -/
inductive JsNum where
  | nan : JsNum
  | inf : JsNum
  | negInf : JsNum
  | fin (q : ℚ) : JsNum
deriving Repr, DecidableEq

/-- `Number.isNaN`. -/
def JsNum.isNaN : JsNum → Bool
  | .nan => true
  | _ => false

/-- ASCII lowercasing of one character (the fragment of JS `toLowerCase`
that the source's comparisons exercise). -/
def lowerChar (c : Char) : Char :=
  if 'A' ≤ c ∧ c ≤ 'Z' then Char.ofNat (c.toNat + 32) else c

/-- JS `toLowerCase` on the ASCII fragment, kept kernel-computable. -/
def jsToLower (s : String) : String :=
  ⟨s.data.map lowerChar⟩

/-- JS whitespace, ASCII fragment (space, tab, LF, VT, FF, CR). -/
def isWsChar (c : Char) : Bool :=
  c.toNat = 32 ∨ c.toNat = 9 ∨ c.toNat = 10 ∨ c.toNat = 11 ∨
    c.toNat = 12 ∨ c.toNat = 13

/-- Drop leading whitespace characters. -/
def dropWsLeading : List Char → List Char
  | [] => []
  | c :: t => if isWsChar c then dropWsLeading t else c :: t

/-- JS `trim` on the ASCII whitespace fragment, kept kernel-computable. -/
def jsTrim (s : String) : String :=
  ⟨(dropWsLeading (dropWsLeading s.data).reverse).reverse⟩

/-- Helper of `splitDots`, accumulating the current segment reversed. -/
def splitDotsAux (acc : List Char) : List Char → List String
  | [] => [⟨acc.reverse⟩]
  | c :: rest =>
    if c = '.' then (⟨acc.reverse⟩ : String) :: splitDotsAux [] rest
    else splitDotsAux (c :: acc) rest

/-- JS `path.split(".")`. -/
def splitDots (s : String) : List String :=
  splitDotsAux [] s.data

/-- Does one character list start with another (needle first)? -/
def charsStartWith : List Char → List Char → Bool
  | [], _ => true
  | _ :: _, [] => false
  | a :: as, b :: bs => a = b && charsStartWith as bs

/-- Does the haystack contain the needle as a contiguous run? -/
def charsContain (needle : List Char) : List Char → Bool
  | [] => needle.isEmpty
  | c :: rest => charsStartWith needle (c :: rest) || charsContain needle rest

/-- JS `hay.includes(needle)`. -/
def strIncludes (hay needle : String) : Bool :=
  charsContain needle.toList hay.toList

/-- Numeric value of a decimal digit list (most significant first). -/
def digitsToNat (cs : List Char) : Nat :=
  cs.foldl (fun a c => a * 10 + (c.toNat - 48)) 0

/-- Value of a digit in a given radix, if it is one. -/
def digitVal (radix : Nat) (c : Char) : Option Nat :=
  let v : Nat :=
    if c.isDigit then c.toNat - 48
    else if 'a' ≤ c ∧ c ≤ 'f' then c.toNat - 97 + 10
    else if 'A' ≤ c ∧ c ≤ 'F' then c.toNat - 65 + 10
    else 99
  if v < radix then some v else none

/-- Parse a non-empty digit string in the given radix (for `0x`/`0o`/`0b`
numeric string literals). -/
def parseRadixNat (radix : Nat) (cs : List Char) : Option Nat :=
  match cs with
  | [] => none
  | _ =>
    cs.foldl
      (fun acc c =>
        match acc, digitVal radix c with
        | some a, some v => some (a * radix + v)
        | _, _ => none)
      (some 0)

/-- Split a character list into its leading decimal digits and the rest. -/
def spanDigits : List Char → List Char × List Char
  | [] => ([], [])
  | c :: rest =>
    if c.isDigit then
      let (ds, r) := spanDigits rest
      (c :: ds, r)
    else ([], c :: rest)

/-- Assemble a decimal literal value from integer digits, fraction digits
and a decimal exponent. -/
def mkDecimal (intDs fracDs : List Char) (e : ℤ) : ℚ :=
  ((digitsToNat intDs * 10 ^ fracDs.length + digitsToNat fracDs : ℕ) : ℚ) *
    (10 : ℚ) ^ (e - (fracDs.length : ℤ))

/-- Parse an optional exponent part (`e`/`E`, optional sign, digits) that
must consume the whole remaining input; empty input means exponent 0. -/
def parseExpTail (cs : List Char) : Option ℤ :=
  match cs with
  | [] => some 0
  | c :: rest =>
    if c = 'e' ∨ c = 'E' then
      let (sgn, ds0) : ℤ × List Char :=
        match rest with
        | '+' :: r => (1, r)
        | '-' :: r => (-1, r)
        | r => (1, r)
      match ds0 with
      | [] => none
      | _ =>
        if ds0.all Char.isDigit then some (sgn * (digitsToNat ds0 : ℤ))
        else none
    else none

/-- Parse an unsigned ECMAScript decimal string literal
(`Digits ['.' Digits?] Exp?` or `'.' Digits Exp?`), consuming all input. -/
def parseUnsignedDecimal (cs : List Char) : Option ℚ :=
  let (intDs, rest) := spanDigits cs
  match rest with
  | '.' :: rest2 =>
    let (fracDs, rest3) := spanDigits rest2
    if intDs.isEmpty && fracDs.isEmpty then none
    else
      match parseExpTail rest3 with
      | some e => some (mkDecimal intDs fracDs e)
      | none => none
  | _ =>
    if intDs.isEmpty then none
    else
      match parseExpTail rest with
      | some e => some (mkDecimal intDs [] e)
      | none => none

/-- ECMAScript `Number(string)` conversion (the `StringNumericLiteral`
grammar): surrounding whitespace is trimmed, the empty string is 0,
`Infinity` with optional sign is an infinity, `0x`/`0o`/`0b` literals are
non-decimal integers, anything else is a signed decimal literal or NaN.
The mathematical value is kept exact instead of being rounded to a double. -/
def jsStringToNumber (s : String) : JsNum :=
  let t := (jsTrim s).toList
  match t with
  | [] => .fin 0
  | '0' :: c :: rest =>
    if c = 'x' ∨ c = 'X' then
      match parseRadixNat 16 rest with
      | some n => .fin n
      | none => .nan
    else if c = 'o' ∨ c = 'O' then
      match parseRadixNat 8 rest with
      | some n => .fin n
      | none => .nan
    else if c = 'b' ∨ c = 'B' then
      match parseRadixNat 2 rest with
      | some n => .fin n
      | none => .nan
    else
      match parseUnsignedDecimal t with
      | some q => .fin q
      | none => .nan
  | _ =>
    let (sgn, body) : ℤ × List Char :=
      match t with
      | '+' :: r => (1, r)
      | '-' :: r => (-1, r)
      | r => (1, r)
    if body = "Infinity".toList then
      if sgn = 1 then .inf else .negInf
    else
      match parseUnsignedDecimal body with
      | some q => .fin ((sgn : ℚ) * q)
      | none => .nan

/-- `isNumeric` from src/extension.ts: a number is always numeric; a string
is numeric when it is non-blank and `Number(value)` is not NaN; everything
else is not numeric. -/
def isNumeric : Json → Bool
  | .num _ => true
  | .str s => decide (jsTrim s ≠ "") && !(jsStringToNumber s).isNaN
  | _ => false

/-- Is the string a non-empty run of decimal digits (JS regex of the array
index check in `getValueByPath`)? -/
def isDigitRun (s : String) : Bool :=
  decide (s ≠ "") && s.toList.all Char.isDigit

/-- Property lookup on a JSON value as JS does it: named properties on
objects (unique first hit), index properties on arrays, `undefined`
elsewhere. -/
def jsProp (v : Json) (k : String) : Option Json :=
  match v with
  | .obj entries => (entries.find? (fun e => e.1 = k)).map (fun e => e.2)
  | .arr elems => if isDigitRun k then elems.get? (digitsToNat k.toList) else none
  | _ => none

/-- Loop body of `getValueByPath`: walk the remaining path parts from the
current value (`none` is JS `undefined`). -/
def walkPath : List String → Option Json → Option Json
  | [], cur => cur
  | _ :: _, none => none
  | _ :: _, some .null => none
  | p :: ps, some (.arr elems) =>
    if isDigitRun p then walkPath ps (elems.get? (digitsToNat p.toList))
    else none
  | p :: ps, some (.obj entries) =>
    walkPath ps ((entries.find? (fun e => e.1 = p)).map (fun e => e.2))
  | _ :: _, some _ => none

/-- `getValueByPath` from src/extension.ts: split the dotted path, drop
empty segments, and walk the document. -/
def getValueByPath (data : Json) (path : String) : Option Json :=
  walkPath ((splitDots path).filter (fun p => p ≠ "")) (some data)

/-- `getNumberByPath` from src/extension.ts: a number is returned as is; a
string is converted with `Number(...)` and returned unless that gives NaN;
anything else is `undefined`. -/
def getNumberByPath (data : Json) (path : String) : Option JsNum :=
  match getValueByPath data path with
  | some (.num q) => some (.fin q)
  | some (.str s) =>
    match jsStringToNumber s with
    | .nan => none
    | v => some v
  | _ => none

/-- Structural size of a JSON value, the termination measure of the
breadth-first search. -/
def jsize : Json → Nat
  | .null => 1
  | .bool _ => 1
  | .num _ => 1
  | .str _ => 1
  | .arr [] => 1
  | .arr (e :: rest) => jsize e + jsize (.arr rest)
  | .obj [] => 1
  | .obj ((_, c) :: rest) => jsize c + jsize (.obj rest)

theorem jsize_pos (v : Json) : 0 < jsize v := by
  induction v using jsize.induct <;> simp [jsize] <;> omega

/-- Join a dotted path and a new segment, as both traversal sites in the
source do (`path ? path + "." + seg : seg`). -/
def joinPath (path seg : String) : String :=
  if path = "" then seg else path ++ "." ++ seg

/-- Queue entries pushed for the elements of an array node in
`guessUsagePath`: every element is pushed, with its index in the path. -/
def arrChildren (path : String) (i : Nat) : List Json → List (Json × String)
  | [] => []
  | e :: rest => (e, joinPath path (toString i)) :: arrChildren path (i + 1) rest

/-- The early-return scan over an object's entries in `guessUsagePath`:
the first entry whose lowercased key is a candidate and whose value is
numeric yields its dotted path. -/
def objFind (keys : List String) (path : String)
    (entries : List (String × Json)) : Option String :=
  entries.findSome? fun e =>
    if keys.contains (jsToLower e.1) && isNumeric e.2 then some (joinPath path e.1)
    else none

/-- Queue entries pushed for an object node in `guessUsagePath` when no
entry matched: exactly the object- or array-valued children. -/
def objChildren (path : String) (entries : List (String × Json)) :
    List (Json × String) :=
  entries.filterMap fun e =>
    match e.2 with
    | .arr _ => some (e.2, joinPath path e.1)
    | .obj _ => some (e.2, joinPath path e.1)
    | _ => none

/-- Total size of the values held in a BFS queue. -/
def qMeasure (q : List (Json × String)) : Nat :=
  (q.map fun n => jsize n.1).sum

theorem qMeasure_append (a b : List (Json × String)) :
    qMeasure (a ++ b) = qMeasure a + qMeasure b := by
  simp [qMeasure]

theorem qMeasure_cons (v : Json) (p : String) (rest : List (Json × String)) :
    qMeasure ((v, p) :: rest) = jsize v + qMeasure rest := by
  simp [qMeasure]

theorem qMeasure_arrChildren (path : String) (i : Nat) (elems : List Json) :
    qMeasure (arrChildren path i elems) + 1 = jsize (.arr elems) := by
  induction elems generalizing i with
  | nil => simp [arrChildren, qMeasure, jsize]
  | cons e rest ih =>
    have h := ih (i + 1)
    simp only [arrChildren, qMeasure, List.map_cons, List.sum_cons, jsize] at h ⊢
    omega

theorem qMeasure_objChildren (path : String) (entries : List (String × Json)) :
    qMeasure (objChildren path entries) + 1 ≤ jsize (.obj entries) := by
  induction entries with
  | nil => simp [objChildren, qMeasure, jsize]
  | cons e rest ih =>
    obtain ⟨k, c⟩ := e
    have hpos := jsize_pos c
    cases c <;>
      simp only [objChildren, List.filterMap_cons, qMeasure, List.map_cons,
        List.sum_cons, jsize] at ih ⊢ <;>
      omega

theorem qMeasure_dec_arr (path : String) (elems : List Json)
    (rest : List (Json × String)) :
    qMeasure (rest ++ arrChildren path 0 elems) <
      qMeasure ((Json.arr elems, path) :: rest) := by
  have h := qMeasure_arrChildren path 0 elems
  have h2 := qMeasure_append rest (arrChildren path 0 elems)
  rw [qMeasure_cons]
  omega

theorem qMeasure_dec_obj (path : String) (entries : List (String × Json))
    (rest : List (Json × String)) :
    qMeasure (rest ++ objChildren path entries) <
      qMeasure ((Json.obj entries, path) :: rest) := by
  have h := qMeasure_objChildren path entries
  have h2 := qMeasure_append rest (objChildren path entries)
  rw [qMeasure_cons]
  omega

theorem qMeasure_dec_skip (v : Json) (path : String)
    (rest : List (Json × String)) :
    qMeasure rest < qMeasure ((v, path) :: rest) := by
  have := jsize_pos v
  rw [qMeasure_cons]
  omega

/-- The queue loop of `guessUsagePath` from src/extension.ts: dequeue a
node; skip it unless it is an object or array; push every array element;
scan an object's entries for a candidate key with a numeric value,
returning its path, and otherwise push the object- or array-valued
children at the back of the queue. -/
def guessAux (keys : List String) (q : List (Json × String)) : Option String :=
  match q with
  | [] => none
  | (v, path) :: rest =>
    match v with
    | .arr elems => guessAux keys (rest ++ arrChildren path 0 elems)
    | .obj entries =>
      match objFind keys path entries with
      | some p => some p
      | none => guessAux keys (rest ++ objChildren path entries)
    | _ => guessAux keys rest
termination_by qMeasure q
decreasing_by
  all_goals
    first
      | exact qMeasure_dec_arr _ _ _
      | exact qMeasure_dec_obj _ _ _
      | exact qMeasure_dec_skip _ _ _

/-- `guessUsagePath` from src/extension.ts: breadth-first search from the
root with lowercased candidate keys. -/
def guessUsagePath (data : Json) (candidates : List String) : Option String :=
  guessAux (candidates.map jsToLower) [(data, "")]

/-- The loop of `findTeamMemberUsage` over the `teamMemberSpend` array:
skip non-object items, compare the trimmed lowercased `email` field, and
read `includedSpendCents` as a number or a `Number(...)`-parseable string. -/
def memberScan (targetEmail : String) (i : Nat) : List Json → Option (JsNum × String)
  | [] => none
  | item :: rest =>
    match item with
    | .obj _ | .arr _ =>
      let entryEmail :=
        match jsProp item "email" with
        | some (.str s) => jsToLower (jsTrim s)
        | _ => ""
      if entryEmail = targetEmail then
        match jsProp item "includedSpendCents" with
        | some (.num q) =>
          some (.fin q, "teamMemberSpend." ++ toString i ++ ".includedSpendCents")
        | some (.str s) =>
          match jsStringToNumber s with
          | .nan => memberScan targetEmail (i + 1) rest
          | v => some (v, "teamMemberSpend." ++ toString i ++ ".includedSpendCents")
        | _ => memberScan targetEmail (i + 1) rest
      else memberScan targetEmail (i + 1) rest
    | _ => memberScan targetEmail (i + 1) rest

/-- `findTeamMemberUsage` from src/extension.ts. -/
def findTeamMemberUsage (response : Json) (email : String) : Option (JsNum × String) :=
  if email = "" then none
  else
    match response with
    | .obj _ | .arr _ =>
      match jsProp response "teamMemberSpend" with
      | some (.arr memberSpend) => memberScan (jsToLower (jsTrim email)) 0 memberSpend
      | _ => none
    | _ => none

/-- The `cursorUsage` settings snapshot (`UsageConfig` in src/extension.ts). -/
structure UsageConfig where
  token : String
  email : String
  teamId : String
  refreshIntervalMinutes : ℚ
  showPercentage : Bool
  showInStatusBar : Bool
  responseUsedField : String
  responseLimitField : String
deriving Repr

/-- `UsageResult` from src/extension.ts (`none` is JS `undefined`). -/
structure UsageResult where
  used : Option JsNum
  limit : Option JsNum
  usedPath : Option String
  limitPath : Option String
  raw : Json
deriving Repr

/-- The candidate key list for the limit in `extractUsage`. -/
def limitCandidates : List String :=
  ["spendLimitCents", "limit", "quota", "max", "usageLimit", "monthlyLimit"]

/-- The candidate key list for the used value in `extractUsage`. -/
def usedCandidates : List String :=
  ["spendCents", "spend", "usage", "used", "totalSpendCents", "totalSpend",
    "monthlySpendCents", "monthlySpend"]

/-- `extractUsage` from src/extension.ts: non-objects carry no usage; a
configured field always wins over the heuristic search; with no configured
used field, a `teamMemberSpend` match for the configured email is
preferred; otherwise the heuristic used path is read. -/
def extractUsage (response : Json) (config : UsageConfig) : UsageResult :=
  match response with
  | .obj _ | .arr _ =>
    let limitPath :=
      if config.responseLimitField ≠ "" then some config.responseLimitField
      else guessUsagePath response limitCandidates
    let limit :=
      match limitPath with
      | some p => getNumberByPath response p
      | none => none
    let memberBranch :=
      if config.responseUsedField = "" then findTeamMemberUsage response config.email
      else none
    match memberBranch with
    | some (u, upath) =>
      { used := some u, limit := limit, usedPath := some upath,
        limitPath := limitPath, raw := response }
    | none =>
      let usedPath :=
        if config.responseUsedField ≠ "" then some config.responseUsedField
        else guessUsagePath response usedCandidates
      let used :=
        match usedPath with
        | some p => getNumberByPath response p
        | none => none
      { used := used, limit := limit, usedPath := usedPath,
        limitPath := limitPath, raw := response }
  | _ => { used := none, limit := none, usedPath := none, limitPath := none,
           raw := response }

/-- Outcome of `requestJson` from src/extension.ts. The status code, the
raw body text and the (external) JSON parse outcome of the body determine
it; `authError` and `requestError` carry the status and the raw body as
the thrown error objects do, and a failed parse is a plain error distinct
from both. -/
inductive FetchOutcome where
  | authError (status : Nat) (body : String) : FetchOutcome
  | requestError (status : Nat) (body : String) : FetchOutcome
  | parseError (body : String) : FetchOutcome
  | ok (json : Json) : FetchOutcome
deriving Repr

/-- The response handler of `requestJson` from src/extension.ts: status
401 or 403 rejects with `AuthError` before anything else; any other status
outside `[200, 300)` rejects with `RequestError`; otherwise the body is
parsed as JSON, a failure rejecting with a plain parse error. The JSON
parser itself is external (`JSON.parse`) and passed as a function. -/
def requestJson (status : Nat) (body : String)
    (parse : String → Option Json) : FetchOutcome :=
  if status = 401 ∨ status = 403 then .authError status body
  else if status < 200 ∨ 300 ≤ status then .requestError status body
  else
    match parse body with
    | some j => .ok j
    | none => .parseError body

/-- The in-band auth keyword pattern
`/(token|unauthorized|forbidden|auth|login|expired)/i` as a test: does the
lowercased string contain one of the six words? -/
def authRegexTest (s : String) : Bool :=
  ["token", "unauthorized", "forbidden", "auth", "login", "expired"].any
    fun w => strIncludes (jsToLower s) w

/-- The fixed top-level field names scanned by `detectAuthErrorResponse`. -/
def authFields : List String :=
  ["error", "message", "detail", "errorMessage"]

/-- The body of the fixed-field loop of `detectAuthErrorResponse`: a
string value of the field that matches the auth pattern. -/
def authFieldCheck (r : Json) (f : String) : Option String :=
  match jsProp r f with
  | some (.str v) => if authRegexTest v then some v else none
  | _ => none

/-- The body of the `errors`-array loop of `detectAuthErrorResponse`: a
matching string element, or the matching string `message` field of an
object element. -/
def authEntryCheck (entry : Json) : Option String :=
  match entry with
  | .str s => if authRegexTest s then some s else none
  | .obj _ | .arr _ =>
    match jsProp entry "message" with
    | some (.str m) => if authRegexTest m then some m else none
    | _ => none
  | _ => none

/-- The body of `detectAuthErrorResponse` from src/extension.ts once the
container guard has passed: the four fixed fields are scanned in order for
a matching string value, then every element of a top-level `errors` array. -/
def detectAuthScan (r : Json) : Option String :=
  let fieldHit := authFields.findSome? (authFieldCheck r)
  match fieldHit with
  | some v => some v
  | none =>
    match jsProp r "errors" with
    | some (.arr errs) => errs.findSome? authEntryCheck
    | _ => none

/-- `detectAuthErrorResponse` from src/extension.ts: only objects (in the
JS sense, which includes arrays) are inspected, by `detectAuthScan`. -/
def detectAuthErrorResponse (response : Json) : Option String :=
  match response with
  | .obj _ | .arr _ => detectAuthScan response
  | _ => none

/-- The cookie header built by `fetchUsage` from src/extension.ts: the
trimmed token, prefixed with `WorkosCursorSessionToken=` unless its
lowercasing already contains that prefix. -/
def buildCookieHeader (token : String) : String :=
  let h := jsTrim token
  if strIncludes (jsToLower h) "workoscursorsessiontoken=" then h
  else "WorkosCursorSessionToken=" ++ h

/-- Outcome of `fetchUsage` from src/extension.ts as observed by its
caller: an `AuthError` (from the HTTP status or from in-band detection on
a parsed 2xx body), a `RequestError`, a parse error, or the parsed JSON. -/
inductive UsageFetchOutcome where
  | authError (message : String) (status : Nat) : UsageFetchOutcome
  | requestError (status : Nat) (body : String) : UsageFetchOutcome
  | parseError (body : String) : UsageFetchOutcome
  | success (json : Json) : UsageFetchOutcome
deriving Repr

/-- The response classification of `fetchUsage` from src/extension.ts:
`requestJson` first, then `detectAuthErrorResponse` on a parsed body; an
in-band match is thrown as `AuthError` with status literal 200. -/
def fetchUsage (status : Nat) (body : String)
    (parse : String → Option Json) : UsageFetchOutcome :=
  match requestJson status body parse with
  | .authError s _ =>
    .authError ("Authentication failed (" ++ toString s ++ "). Token may be invalid.") s
  | .requestError s b => .requestError s b
  | .parseError b => .parseError b
  | .ok j =>
    match detectAuthErrorResponse j with
    | some issue => .authError ("Authentication failed: " ++ issue) 200
    | none => .success j

/-- JS `>` against 0 (`usage.limit > 0`): false for NaN and -Infinity. -/
def JsNum.gtZero : JsNum → Bool
  | .fin q => decide (0 < q)
  | .inf => true
  | _ => false

/-- IEEE multiplication on the extended rationals (signed zeros collapsed
to 0). -/
def JsNum.mul : JsNum → JsNum → JsNum
  | .nan, _ => .nan
  | _, .nan => .nan
  | .inf, .inf => .inf
  | .inf, .negInf => .negInf
  | .negInf, .inf => .negInf
  | .negInf, .negInf => .inf
  | .inf, .fin q => if q = 0 then .nan else if 0 < q then .inf else .negInf
  | .fin q, .inf => if q = 0 then .nan else if 0 < q then .inf else .negInf
  | .negInf, .fin q => if q = 0 then .nan else if 0 < q then .negInf else .inf
  | .fin q, .negInf => if q = 0 then .nan else if 0 < q then .negInf else .inf
  | .fin a, .fin b => .fin (a * b)

/-- IEEE division on the extended rationals (signed zeros collapsed to 0,
so a zero divisor behaves like +0). -/
def JsNum.div : JsNum → JsNum → JsNum
  | .nan, _ => .nan
  | _, .nan => .nan
  | .inf, .inf => .nan
  | .inf, .negInf => .nan
  | .negInf, .inf => .nan
  | .negInf, .negInf => .nan
  | .inf, .fin q => if q < 0 then .negInf else .inf
  | .negInf, .fin q => if q < 0 then .inf else .negInf
  | .fin _, .inf => .fin 0
  | .fin _, .negInf => .fin 0
  | .fin a, .fin b =>
    if b = 0 then
      if a = 0 then .nan else if 0 < a then .inf else .negInf
    else .fin (a / b)

/-- JS `Math.round`: nearest integer, halves toward positive infinity;
the special values round to themselves. -/
def JsNum.round : JsNum → JsNum
  | .fin q => .fin ((Rat.floor (q + 1 / 2) : ℤ) : ℚ)
  | x => x

/-- The `Intl.NumberFormat` call in `formatValue`, abstracted to its
style, the amount handed to the formatter, and the
`maximumFractionDigits` option passed in the source. -/
inductive FormattedValue where
  | currencyUSD (amount : JsNum) (maxFractionDigits : Nat) : FormattedValue
  | plain (amount : JsNum) (maxFractionDigits : Nat) : FormattedValue
deriving Repr, DecidableEq

/-- `formatValue` from src/extension.ts: when the lowercased provenance
path (empty when absent) contains `cents`, the value divided by 100 is
formatted as US-dollar currency with at most 2 fraction digits; otherwise
the value itself is formatted plainly with at most 2 fraction digits. -/
def formatValue (value : JsNum) (path : Option String) : FormattedValue :=
  let lowerPath := jsToLower (path.getD "")
  if strIncludes lowerPath "cents" then
    .currencyUSD (value.div (.fin 100)) 2
  else .plain value 2

/-- The status bar content produced by `renderUsage`, structured: the
`no data` text, or the formatted used value, the optional formatted limit,
and the optional percent figure appended to the text. -/
inductive StatusRender where
  | noData : StatusRender
  | withUsage (used : FormattedValue) (limit : Option FormattedValue)
      (percent : Option JsNum) : StatusRender
deriving Repr, DecidableEq

/-- `renderUsage` from src/extension.ts: no usable `used` value renders
the `no data` state; otherwise the used value is formatted with its path,
the limit likewise when present, and the percent
`Math.round(used / limit * 100)` is appended exactly when a limit is
present, `showPercentage` is on and the limit is `> 0`. -/
def renderUsage (usage : UsageResult) (config : UsageConfig) : StatusRender :=
  match usage.used with
  | none => .noData
  | some u =>
    let usedText := formatValue u usage.usedPath
    match usage.limit with
    | none => .withUsage usedText none none
    | some l =>
      let limitText := formatValue l usage.limitPath
      if config.showPercentage && l.gtZero then
        .withUsage usedText (some limitText)
          (some ((u.div l).mul (.fin 100)).round)
      else .withUsage usedText (some limitText) none

/-- The percent component of a rendered status. -/
def percentShown : StatusRender → Option JsNum
  | .noData => none
  | .withUsage _ _ p => p

/-- The formatted used value of a rendered status. -/
def usedShown : StatusRender → Option FormattedValue
  | .noData => none
  | .withUsage u _ _ => some u

/-- The formatted limit value of a rendered status. -/
def limitShown : StatusRender → Option FormattedValue
  | .noData => none
  | .withUsage _ l _ => l

/-- The status bar item content set by `updateStatus` during a cycle. -/
inductive StatusDisplay where
  | initial : StatusDisplay
  | missingSettings : StatusDisplay
  | loading : StatusDisplay
  | tokenExpired (message : String) : StatusDisplay
  | errorState (message : String) : StatusDisplay
  | rendered (r : StatusRender) : StatusDisplay
deriving Repr, DecidableEq

/-- The module-level mutable state of src/extension.ts that a refresh
cycle reads and writes: the `isRefreshing` guard flag and the status bar
content. -/
structure OrchestratorState where
  isRefreshing : Bool
  status : StatusDisplay
deriving Repr, DecidableEq

/-- Externally visible side effects of a refresh cycle. -/
inductive Effect where
  | networkRequest : Effect
  | credentialPrompt : Effect
  | authRecoveryPrompt (message : String) : Effect
  | errorNotification (message : String) : Effect
  | logLine (line : String) : Effect
deriving Repr, DecidableEq

/-- Summary of how the awaited body of one refresh cycle ended: the user
declined a credential prompt, the fetch succeeded and was extracted, an
`AuthError` was thrown, or another error was thrown. -/
inductive CycleOutcome where
  | missingCredentials : CycleOutcome
  | fetched (usage : UsageResult) : CycleOutcome
  | authFailed (message : String) : CycleOutcome
  | failed (message : String) : CycleOutcome

/-- `refreshUsage` from src/extension.ts as a step function. The first
line returns immediately while `isRefreshing` is set, with no state change
and no effects; otherwise the flag is set, the body runs (its awaited
interactions abstracted as `outcome` and the effects they emitted as
`bodyEffects`), the catch clauses log and prompt, and the `finally` clause
clears the flag on every path. -/
def refreshUsage (s : OrchestratorState) (config : UsageConfig)
    (outcome : CycleOutcome) (bodyEffects : List Effect) :
    OrchestratorState × List Effect :=
  if s.isRefreshing then (s, [])
  else
    match outcome with
    | .missingCredentials =>
      ({ isRefreshing := false, status := .missingSettings }, bodyEffects)
    | .fetched usage =>
      ({ isRefreshing := false, status := .rendered (renderUsage usage config) },
        bodyEffects)
    | .authFailed msg =>
      ({ isRefreshing := false, status := .tokenExpired msg },
        bodyEffects ++ [.logLine ("[auth] " ++ msg), .authRecoveryPrompt msg])
    | .failed msg =>
      ({ isRefreshing := false, status := .errorState msg },
        bodyEffects ++ [.logLine ("[error] " ++ msg),
          .errorNotification ("Cursor usage request failed: " ++ msg)])

/-- The persisted `cursorUsage` configuration section (the workspace
settings store); `none` is an unset value. In src/extension.ts the token
lives here, in plaintext — the extension never touches any secret
storage. -/
structure SettingsStore where
  token : Option String
  email : Option String
  teamId : Option String
  refreshIntervalMinutes : Option ℚ
  showPercentage : Option Bool
  showInStatusBar : Option Bool
  responseUsedField : Option String
  responseLimitField : Option String
deriving Repr, DecidableEq

/-- `DEFAULT_TEAM_ID` from src/extension.ts. -/
def DEFAULT_TEAM_ID : String := "14089613"

/-- `getConfig` from src/extension.ts: every refresh cycle re-reads the
plaintext settings, trimming the string values and defaulting the team id,
interval and display toggles. -/
def getConfig (s : SettingsStore) : UsageConfig :=
  { token := jsTrim (s.token.getD "")
    email := jsTrim (s.email.getD "")
    teamId := jsTrim (s.teamId.getD DEFAULT_TEAM_ID)
    refreshIntervalMinutes := s.refreshIntervalMinutes.getD 15
    showPercentage := s.showPercentage.getD true
    showInStatusBar := s.showInStatusBar.getD true
    responseUsedField := jsTrim (s.responseUsedField.getD "")
    responseLimitField := jsTrim (s.responseLimitField.getD "") }

/-- The credentials a cycle fetches with. -/
structure Credentials where
  token : String
  email : String
  teamId : String
deriving Repr, DecidableEq

/-- Replies to the interactive input boxes of `ensureCredentials`
(`none` is a cancelled box; the source collapses a cancelled box and an
empty reply into the empty string). -/
structure PromptInputs where
  tokenInput : Option String
  emailInput : Option String
  teamIdInput : Option String
deriving Repr, DecidableEq

/-- `ensureCredentials` from src/extension.ts: each field missing from the
configuration is prompted for; an empty or cancelled reply aborts with
`none` (updates already made persist); a supplied reply is written back to
the plaintext `cursorUsage` settings (`ConfigurationTarget.Global`). No
secret storage is involved, and nothing is ever cleared. Returns the
credentials and the settings store after any write-backs. -/
def ensureCredentials (store : SettingsStore) (config : UsageConfig)
    (inputs : PromptInputs) : Option Credentials × SettingsStore :=
  let tokenStep : Option (String × SettingsStore) :=
    if config.token ≠ "" then some (config.token, store)
    else
      let t := jsTrim (inputs.tokenInput.getD "")
      if t = "" then none else some (t, { store with token := some t })
  match tokenStep with
  | none => (none, store)
  | some (token, store1) =>
    let emailStep : Option (String × SettingsStore) :=
      if config.email ≠ "" then some (config.email, store1)
      else
        let e := jsTrim (inputs.emailInput.getD "")
        if e = "" then none else some (e, { store1 with email := some e })
    match emailStep with
    | none => (none, store1)
    | some (email, store2) =>
      let teamStep : Option (String × SettingsStore) :=
        if config.teamId ≠ "" then some (config.teamId, store2)
        else
          let t := jsTrim (inputs.teamIdInput.getD "")
          if t = "" then none else some (t, { store2 with teamId := some t })
      match teamStep with
      | none => (none, store2)
      | some (teamId, store3) =>
        (some { token := token, email := email, teamId := teamId }, store3)

/-- A key visited by the breadth-first enumeration of a document: its
name, its full dotted path, its depth (number of path segments) and its
value. Used to state what `guessUsagePath` must return. -/
structure Visit where
  key : String
  path : String
  depth : Nat
  value : Json
deriving Repr

/-- Forget the depth annotation of an enumeration queue node, recovering
the queue nodes the source's search actually carries. -/
def stripDepth (n : Json × String × Nat) : Json × String :=
  (n.1, n.2.1)

/-- Depth-annotated version of `arrChildren`. -/
def arrChildrenD (path : String) (d : Nat) (i : Nat) :
    List Json → List (Json × String × Nat)
  | [] => []
  | e :: rest =>
    (e, joinPath path (toString i), d + 1) :: arrChildrenD path d (i + 1) rest

/-- Depth-annotated version of `objChildren`. -/
def objChildrenD (path : String) (d : Nat)
    (entries : List (String × Json)) : List (Json × String × Nat) :=
  entries.filterMap fun e =>
    match e.2 with
    | .arr _ => some (e.2, joinPath path e.1, d + 1)
    | .obj _ => some (e.2, joinPath path e.1, d + 1)
    | _ => none

theorem stripDepth_arrChildrenD (path : String) (d i : Nat) (elems : List Json) :
    (arrChildrenD path d i elems).map stripDepth = arrChildren path i elems := by
  induction elems generalizing i with
  | nil => simp [arrChildrenD, arrChildren]
  | cons e rest ih => simp [arrChildrenD, arrChildren, stripDepth, ih]

theorem stripDepth_objChildrenD (path : String) (d : Nat)
    (entries : List (String × Json)) :
    (objChildrenD path d entries).map stripDepth = objChildren path entries := by
  induction entries with
  | nil => simp [objChildrenD, objChildren]
  | cons e rest ih =>
    obtain ⟨k, c⟩ := e
    cases c <;>
      simp only [objChildrenD, objChildren, List.filterMap_cons, List.map_cons,
        stripDepth] at ih ⊢ <;>
      simp_all [objChildrenD, objChildren]

theorem qMeasureD_dec_arr (path : String) (d : Nat) (elems : List Json)
    (rest : List (Json × String × Nat)) :
    qMeasure ((rest ++ arrChildrenD path d 0 elems).map stripDepth) <
      qMeasure (((Json.arr elems, path, d) :: rest).map stripDepth) := by
  rw [List.map_append, List.map_cons, stripDepth_arrChildrenD]
  exact qMeasure_dec_arr path elems (rest.map stripDepth)

theorem qMeasureD_dec_obj (path : String) (d : Nat)
    (entries : List (String × Json)) (rest : List (Json × String × Nat)) :
    qMeasure ((rest ++ objChildrenD path d entries).map stripDepth) <
      qMeasure (((Json.obj entries, path, d) :: rest).map stripDepth) := by
  rw [List.map_append, List.map_cons, stripDepth_objChildrenD]
  exact qMeasure_dec_obj path entries (rest.map stripDepth)

theorem qMeasureD_dec_skip (v : Json) (path : String) (d : Nat)
    (rest : List (Json × String × Nat)) :
    qMeasure (rest.map stripDepth) <
      qMeasure (((v, path, d) :: rest).map stripDepth) := by
  rw [List.map_cons]
  exact qMeasure_dec_skip v path (rest.map stripDepth)

/-- The full breadth-first enumeration of all keys reachable by the
search's queue discipline, with no early exit: each dequeued object emits
its entries (in enumeration order, at depth one more than the node), and
the queue grows exactly as in `guessAux`. -/
def enumAux : List (Json × String × Nat) → List Visit
  | [] => []
  | (v, path, d) :: rest =>
    match v with
    | .arr elems => enumAux (rest ++ arrChildrenD path d 0 elems)
    | .obj entries =>
      (entries.map fun e => ⟨e.1, joinPath path e.1, d + 1, e.2⟩) ++
        enumAux (rest ++ objChildrenD path d entries)
    | _ => enumAux rest
termination_by q => qMeasure (q.map stripDepth)
decreasing_by
  all_goals
    first
      | exact qMeasureD_dec_arr _ _ _ _
      | exact qMeasureD_dec_obj _ _ _ _
      | exact qMeasureD_dec_skip _ _ _ _

/-- All keys of a document in breadth-first visit order, starting from the
root at depth 0. -/
def bfsVisits (data : Json) : List Visit :=
  enumAux [(data, "", 0)]

/-- Does a visited key match: its lowercased name is among the lowercased
candidates and its value is numeric (the search's acceptance test)? -/
def isMatch (candidates : List String) (t : Visit) : Bool :=
  (candidates.map jsToLower).contains (jsToLower t.key) && isNumeric t.value

/-- The matching keys of a document in breadth-first visit order. -/
def bfsMatches (data : Json) (candidates : List String) : List Visit :=
  (bfsVisits data).filter (isMatch candidates)

/-- Does the document contain, at any depth, an object entry whose
lowercased key is among the given (already lowercased) keys and whose
value is numeric? Structural statement of "such a key exists". -/
def hasNumericKey (keys : List String) : Json → Bool
  | .obj [] => false
  | .obj ((k, c) :: rest) =>
    (keys.contains (jsToLower k) && isNumeric c) || hasNumericKey keys c ||
      hasNumericKey keys (.obj rest)
  | .arr [] => false
  | .arr (e :: rest) => hasNumericKey keys e || hasNumericKey keys (.arr rest)
  | _ => false

/-- The string value of one fixed top-level field, when it is a string. -/
def authFieldProbe (r : Json) (f : String) : Option String :=
  match jsProp r f with
  | some (.str v) => some v
  | _ => none

/-- The string an element of the `errors` array contributes: the element
itself when a string, else its string `message` field. -/
def authEntryProbe (entry : Json) : Option String :=
  match entry with
  | .str s => some s
  | .obj _ | .arr _ =>
    match jsProp entry "message" with
    | some (.str m) => some m
    | _ => none
  | _ => none

/-- The exact strings the in-band auth detector scans, in scan order: the
string values of the top-level fields `error`, `message`, `detail`,
`errorMessage`, then for each element of a top-level `errors` array the
string element itself or the string `message` field of an object
element. -/
def authCandidateStrings (response : Json) : List String :=
  (authFields.filterMap (authFieldProbe response)) ++
    (match jsProp response "errors" with
      | some (.arr errs) => errs.filterMap authEntryProbe
      | _ => [])

/-- A settings snapshot with everything at its default and no configured
override fields, used for concrete evaluations. -/
def sampleConfig : UsageConfig :=
  { token := "tok", email := "", teamId := "1", refreshIntervalMinutes := 15,
    showPercentage := true, showInStatusBar := true,
    responseUsedField := "", responseLimitField := "" }

theorem ratFloor_eq_intFloor (q : ℚ) : (Rat.floor q : ℤ) = ⌊q⌋ := by
  rw [Rat.floor_def', ← Rat.floor_def]

theorem qMeasure_cons_strip (v : Json) (p : String) (d : Nat)
    (rest : List (Json × String × Nat)) :
    qMeasure (((v, p, d) :: rest).map stripDepth) =
      jsize v + qMeasure (rest.map stripDepth) := by
  rw [List.map_cons]
  exact qMeasure_cons v p (rest.map stripDepth)

theorem stripDepth_mk (v : Json) (p : String) (d : Nat) :
    stripDepth (v, p, d) = (v, p) := rfl

/-- C3: `requestJson` classifies the response by status code before
parsing: status 401 or 403 fails with `AuthError`; any other status
outside `[200, 300)` fails with `RequestError` carrying the status and the
raw body text; a 2xx status parses the body as JSON and a parse failure is
a plain error that is neither an `AuthError` nor a `RequestError`. -/
theorem requestJson_classifies (status : Nat) (body : String)
    (parse : String → Option Json) :
    (status = 401 ∨ status = 403 →
      requestJson status body parse = .authError status body) ∧
    (status ≠ 401 → status ≠ 403 → status < 200 ∨ 300 ≤ status →
      requestJson status body parse = .requestError status body) ∧
    (200 ≤ status → status < 300 →
      requestJson status body parse =
        match parse body with
        | some j => .ok j
        | none => .parseError body) ∧
    (∀ s b, FetchOutcome.parseError body ≠ .authError s b ∧
      FetchOutcome.parseError body ≠ .requestError s b) := by
  refine ⟨fun h => ?_, fun h1 h2 h3 => ?_, fun h1 h2 => ?_, fun s b => by simp⟩
  · simp [requestJson, h]
  · rw [requestJson, if_neg (by tauto), if_pos h3]
  · rw [requestJson, if_neg (by rintro (rfl | rfl) <;> omega),
      if_neg (by omega)]

/-- Witness for C3: the classification at statuses 403, 500 and 200, the
last with a parsable and an unparsable body. -/
theorem requestJson_classifies_witness :
    requestJson 403 "denied" (fun _ => none) = .authError 403 "denied" ∧
    requestJson 500 "oops" (fun _ => none) = .requestError 500 "oops" ∧
    requestJson 200 "ok" (fun _ => some (.obj [])) = .ok (.obj []) ∧
    requestJson 200 "bad" (fun _ => none) = .parseError "bad" := by
  refine ⟨(requestJson_classifies 403 "denied" _).1 (Or.inr rfl), ?_, ?_, ?_⟩
  · exact (requestJson_classifies 500 "oops" _).2.1
      (by omega) (by omega) (by omega)
  · exact (requestJson_classifies 200 "ok" _).2.2.1 (by omega) (by omega)
  · exact (requestJson_classifies 200 "bad" _).2.2.1 (by omega) (by omega)

/-- Counterexample to C6 as stated: the string "Infinity" converts to the
non-finite value +Infinity, yet `isNumeric` accepts it and
`getNumberByPath` returns the infinite value — only NaN is rejected. -/
theorem isNumeric_accepts_infinite_string :
    isNumeric (.str "Infinity") = true ∧
    jsStringToNumber "Infinity" = .inf ∧
    getNumberByPath (.obj [("spend", .str "Infinity")]) "spend" = some .inf := by
  exact ⟨rfl, rfl, rfl⟩

/-- C6 amended: a value counts as usable iff it is a number, or a string
that is non-blank after trimming and whose `Number(...)` conversion is not
NaN; a string converting to an infinity is accepted, only NaN is
rejected. -/
theorem isNumeric_iff (v : Json) :
    isNumeric v = true ↔
      ((∃ q, v = .num q) ∨
        (∃ s, v = .str s ∧ jsTrim s ≠ "" ∧ jsStringToNumber s ≠ .nan)) := by
  cases v with
  | str s =>
    cases h : jsStringToNumber s <;>
      simp [isNumeric, JsNum.isNaN, h]
  | null => simp [isNumeric]
  | bool b => simp [isNumeric]
  | num q => simp [isNumeric]
  | arr elems => simp [isNumeric]
  | obj entries => simp [isNumeric]

/-- Counterexample to C7 as stated: a token that already contains the
cookie-name prefix but carries trailing whitespace is not sent unchanged —
the fetcher trims it first. -/
theorem buildCookieHeader_not_unchanged :
    buildCookieHeader "WorkosCursorSessionToken=abc " ≠
      "WorkosCursorSessionToken=abc " := by
  decide

/-- C7 amended: the cookie header is built from the trimmed token: the
trimmed token itself when its lowercasing already contains
`workoscursorsessiontoken=`, and otherwise that prefix prepended to the
trimmed token. -/
theorem buildCookieHeader_spec (token : String) :
    (strIncludes (jsToLower (jsTrim token)) "workoscursorsessiontoken=" = true →
      buildCookieHeader token = jsTrim token) ∧
    (strIncludes (jsToLower (jsTrim token)) "workoscursorsessiontoken=" = false →
      buildCookieHeader token = "WorkosCursorSessionToken=" ++ jsTrim token) := by
  constructor <;> intro h <;> simp [buildCookieHeader, h]

/-- Witness for C7's amended statement at a bare token and at a token
already carrying the prefix in different case. -/
theorem buildCookieHeader_spec_witness :
    buildCookieHeader " abc " = "WorkosCursorSessionToken=" ++ "abc" ∧
    buildCookieHeader "workoscursorsessiontoken=xyz" =
      "workoscursorsessiontoken=xyz" := by
  constructor
  · have h := (buildCookieHeader_spec " abc ").2 (by decide)
    simpa using h
  · have h := (buildCookieHeader_spec "workoscursorsessiontoken=xyz").1 (by decide)
    simpa using h

/-- C10: when the provenance path contains `cents` (case-insensitive) the
value divided by 100 is rendered as US-dollar currency with at most 2
fraction digits; for any other path, or when no path is recorded, the
value is rendered plainly with at most 2 fraction digits; and the rendered
used text always comes from `formatValue` at the used value's path. -/
theorem formatValue_cents_rule (v : JsNum) (p : String) (usage : UsageResult)
    (config : UsageConfig) (u : JsNum) :
    (strIncludes (jsToLower p) "cents" = true →
      formatValue v (some p) = .currencyUSD (v.div (.fin 100)) 2) ∧
    (strIncludes (jsToLower p) "cents" = false →
      formatValue v (some p) = .plain v 2) ∧
    (formatValue v none = .plain v 2) ∧
    (usage.used = some u →
      usedShown (renderUsage usage config) = some (formatValue u usage.usedPath)) := by
  refine ⟨fun h => ?_, fun h => ?_, rfl, fun h => ?_⟩
  · simp [formatValue, h]
  · simp [formatValue, h]
  · obtain ⟨u0, l0, up, lp, raw⟩ := usage
    simp only at h
    subst h
    cases l0 with
    | none => rfl
    | some l =>
      simp only [renderUsage]
      by_cases hc : (config.showPercentage && l.gtZero) = true
      · rw [if_pos hc]; rfl
      · rw [if_neg hc]; rfl

/-- Witness for C10: the `includedSpendCents` path renders as currency of
the value over 100, a `usage` path renders plainly, and the used text of a
render comes from `formatValue`. -/
theorem formatValue_cents_rule_witness :
    formatValue (.fin 1234) (some "teamMemberSpend.0.includedSpendCents") =
      .currencyUSD ((JsNum.fin 1234).div (.fin 100)) 2 ∧
    formatValue (.fin 7) (some "usage") = .plain (.fin 7) 2 ∧
    usedShown (renderUsage ⟨some (.fin 5), none, none, none, .null⟩ sampleConfig) =
      some (formatValue (.fin 5) none) := by
  exact ⟨(formatValue_cents_rule (.fin 1234) "teamMemberSpend.0.includedSpendCents"
      ⟨none, none, none, none, .null⟩ sampleConfig (.fin 0)).1 (by decide),
    (formatValue_cents_rule (.fin 7) "usage"
      ⟨none, none, none, none, .null⟩ sampleConfig (.fin 0)).2.1 (by decide),
    (formatValue_cents_rule (.fin 0) ""
      ⟨some (.fin 5), none, none, none, .null⟩ sampleConfig (.fin 5)).2.2.2 rfl⟩

/-- Counterexample to C1 as stated: with used 1, limit 3 and the
percentage enabled, the displayed percent is the rounded 33 and not the
exact fraction 100/3; and with the `showPercentage` setting off no percent
is displayed although used and limit are defined and the limit is
positive. -/
theorem renderUsage_percent_not_exact :
    (percentShown (renderUsage ⟨some (.fin 1), some (.fin 3), none, none, .null⟩
        sampleConfig) = some (.fin 33) ∧
      (1 : ℚ) / 3 * 100 ≠ 33) ∧
    percentShown (renderUsage ⟨some (.fin 1), some (.fin 2), none, none, .null⟩
        { sampleConfig with showPercentage := false }) = none := by
  refine ⟨⟨?_, by norm_num⟩, by rfl⟩
  have hg : (JsNum.fin 3).gtZero = true := by norm_num [JsNum.gtZero]
  have h1 : percentShown (renderUsage
      ⟨some (.fin 1), some (.fin 3), none, none, .null⟩ sampleConfig) =
      some ((((JsNum.fin 1).div (.fin 3)).mul (.fin 100)).round) := by
    simp [renderUsage, sampleConfig, percentShown, hg]
  rw [h1]
  have h2 : (((JsNum.fin 1).div (.fin 3)).mul (.fin 100)).round = .fin 33 := by
    norm_num [JsNum.div, JsNum.mul, JsNum.round]
    rw [ratFloor_eq_intFloor]
    have h3 : (⌊(203 / 6 : ℚ)⌋ : ℤ) = 33 := by
      rw [Int.floor_eq_iff]
      norm_num
    norm_num [h3]
  rw [h2]

/-- C1 amended: the displayed percent is defined iff used and limit are
both extracted, `showPercentage` is on and the limit is greater than 0;
when defined it equals `Math.round(used / limit * 100)`; it is never
itself read from the response. -/
theorem renderUsage_percent_spec (usage : UsageResult) (config : UsageConfig)
    (p : JsNum) :
    percentShown (renderUsage usage config) = some p ↔
      ∃ u l, usage.used = some u ∧ usage.limit = some l ∧
        config.showPercentage = true ∧ l.gtZero = true ∧
        p = ((u.div l).mul (.fin 100)).round := by
  obtain ⟨u0, l0, up, lp, raw⟩ := usage
  cases u0 with
  | none => simp [renderUsage, percentShown]
  | some u =>
    cases l0 with
    | none => simp [renderUsage, percentShown]
    | some l =>
      simp only [renderUsage]
      by_cases hc : (config.showPercentage && l.gtZero) = true
      · obtain ⟨hs, hg⟩ := Bool.and_eq_true_iff.mp hc
        rw [if_pos hc]
        simp only [percentShown, Option.some.injEq]
        constructor
        · rintro rfl
          exact ⟨u, l, rfl, rfl, hs, hg, rfl⟩
        · rintro ⟨u', l', rfl, rfl, _, _, rfl⟩
          rfl
      · rw [if_neg hc]
        simp only [percentShown, Option.some.injEq]
        constructor
        · intro h
          simp at h
        · rintro ⟨u', l', rfl, rfl, hs, hg, rfl⟩
          exact absurd (by simp [hs, hg]) hc

/-- C8: a refresh trigger arriving while a cycle is in flight returns
immediately with no state change and no effects (dropped, not queued), and
a cycle that does run clears the in-flight guard on every completion or
failure path. -/
theorem refreshUsage_mutual_exclusion (s : OrchestratorState)
    (config : UsageConfig) (outcome : CycleOutcome) (bodyEffects : List Effect) :
    (s.isRefreshing = true → refreshUsage s config outcome bodyEffects = (s, [])) ∧
    (s.isRefreshing = false →
      (refreshUsage s config outcome bodyEffects).1.isRefreshing = false) := by
  constructor <;> intro h <;> cases outcome <;> simp [refreshUsage, h]

/-- Witness for C8: a trigger against an in-flight state is a no-op, and a
completed auth-failing cycle leaves the guard clear. -/
theorem refreshUsage_mutual_exclusion_witness :
    refreshUsage ⟨true, .loading⟩ sampleConfig
        (.fetched ⟨some (.fin 1), none, none, none, .null⟩) [.networkRequest] =
      (⟨true, .loading⟩, []) ∧
    (refreshUsage ⟨false, .initial⟩ sampleConfig
        (.authFailed "expired") [.networkRequest]).1.isRefreshing = false := by
  exact ⟨(refreshUsage_mutual_exclusion ⟨true, .loading⟩ sampleConfig _ _).1 rfl,
    (refreshUsage_mutual_exclusion ⟨false, .initial⟩ sampleConfig _ _).2 rfl⟩

/-- C9, evaluated at the failing input: with a plaintext token stored in
the settings, credential retrieval returns that token, performs no
migration into any secret storage (none exists in the code), and leaves
the plaintext location intact, so a second retrieval reads the plaintext
location again. -/
theorem ensureCredentials_plaintext_no_migration :
    ensureCredentials
        { token := some "plain-token", email := some "a@x.com", teamId := some "1",
          refreshIntervalMinutes := none, showPercentage := none,
          showInStatusBar := none, responseUsedField := none,
          responseLimitField := none }
        (getConfig
          { token := some "plain-token", email := some "a@x.com", teamId := some "1",
            refreshIntervalMinutes := none, showPercentage := none,
            showInStatusBar := none, responseUsedField := none,
            responseLimitField := none })
        ⟨none, none, none⟩ =
      (some { token := "plain-token", email := "a@x.com", teamId := "1" },
        { token := some "plain-token", email := some "a@x.com", teamId := some "1",
          refreshIntervalMinutes := none, showPercentage := none,
          showInStatusBar := none, responseUsedField := none,
          responseLimitField := none }) := by
  rfl

/-- A scan with an inline match-and-filter loop body equals filtering the
extracted values first: the generic shape shared by both loops of
`detectAuthErrorResponse`. -/
theorem findSome?_extract_find {α : Type} (test : String → Bool)
    (f g : α → Option String)
    (hfg : ∀ a, f a = match g a with
      | some v => if test v then some v else none
      | none => none) :
    ∀ l : List α, l.findSome? f = (l.filterMap g).find? test := by
  intro l
  induction l with
  | nil => rfl
  | cons a t ih =>
    rw [List.findSome?_cons, hfg a, List.filterMap_cons]
    cases hg : g a with
    | none => exact ih
    | some v =>
      cases ht : test v with
      | false =>
        rw [List.find?_cons_of_neg _ (by simp [ht])]
        simp only [ht, Bool.false_eq_true, if_false]
        exact ih
      | true =>
        rw [List.find?_cons_of_pos _ ht]
        simp only [ht, if_true]

theorem detectAuthScan_eq_find (r : Json) :
    detectAuthScan r = (authCandidateStrings r).find? authRegexTest := by
  have h1 : authFields.findSome? (authFieldCheck r) =
      (authFields.filterMap (authFieldProbe r)).find? authRegexTest := by
    refine findSome?_extract_find authRegexTest _ (authFieldProbe r)
      (fun a => ?_) authFields
    simp only [authFieldCheck, authFieldProbe]
    cases h : jsProp r a with
    | none => rfl
    | some v => cases v <;> rfl
  have h2 : ∀ errs : List Json, errs.findSome? authEntryCheck =
      (errs.filterMap authEntryProbe).find? authRegexTest := by
    refine findSome?_extract_find authRegexTest _ authEntryProbe (fun entry => ?_)
    simp only [authEntryCheck, authEntryProbe]
    cases entry with
    | str s => simp
    | obj es =>
      cases hm : jsProp (Json.obj es) "message" with
      | none => rfl
      | some m => cases m <;> rfl
    | arr es =>
      cases hm : jsProp (Json.arr es) "message" with
      | none => rfl
      | some m => cases m <;> rfl
    | null => rfl
    | bool b => rfl
    | num q => rfl
  simp only [detectAuthScan, authCandidateStrings, h1, List.find?_append]
  cases hf : ((authFields.filterMap (authFieldProbe r)).find? authRegexTest) with
  | some v => rfl
  | none =>
    simp only [Option.none_or]
    cases he : jsProp r "errors" with
    | none => rfl
    | some e =>
      cases e with
      | arr errs => exact h2 errs
      | null => rfl
      | bool b => rfl
      | num q => rfl
      | str s => rfl
      | obj es => rfl

/-- C4: in-band auth detection scans exactly the string values of the
top-level fields `error`, `message`, `detail`, `errorMessage` and the
elements of a top-level `errors` array (strings directly, objects through
their `message` field), testing each against the case-insensitive pattern
of the words token, unauthorized, forbidden, auth, login, expired; a
non-object body yields no issue; and a detected issue makes the fetch fail
with `AuthError` despite the 2xx status. -/
theorem detectAuth_fixed_fields (response : Json) (status : Nat) (body : String)
    (parse : String → Option Json) (j : Json) (issue : String) :
    (detectAuthErrorResponse response =
      (authCandidateStrings response).find? authRegexTest) ∧
    (detectAuthErrorResponse Json.null = none ∧
      (∀ b, detectAuthErrorResponse (.bool b) = none) ∧
      (∀ q, detectAuthErrorResponse (.num q) = none) ∧
      (∀ s, detectAuthErrorResponse (.str s) = none)) ∧
    (200 ≤ status → status < 300 → parse body = some j →
      detectAuthErrorResponse j = some issue →
      fetchUsage status body parse =
        .authError ("Authentication failed: " ++ issue) 200) := by
  refine ⟨?_, ⟨rfl, fun b => rfl, fun q => rfl, fun s => rfl⟩,
    fun h1 h2 hp hd => ?_⟩
  · cases response with
    | arr elems =>
      show detectAuthScan (Json.arr elems) = _
      exact detectAuthScan_eq_find _
    | obj entries =>
      show detectAuthScan (Json.obj entries) = _
      exact detectAuthScan_eq_find _
    | null => rfl
    | bool b => rfl
    | num q => rfl
    | str s => rfl
  · rw [fetchUsage, requestJson, if_neg (by rintro (rfl | rfl) <;> omega),
      if_neg (by omega), hp]
    simp only [hd]

/-- Witness for C4: an HTTP 200 whose body is
`\x7b"error": "Unauthorized access"\x7d` fails with `AuthError` through
in-band detection. -/
theorem detectAuth_fixed_fields_witness :
    fetchUsage 200 "resp"
        (fun _ => some (.obj [("error", .str "Unauthorized access")])) =
      .authError ("Authentication failed: " ++ "Unauthorized access") 200 := by
  exact (detectAuth_fixed_fields (.obj []) 200 "resp" _
    (.obj [("error", .str "Unauthorized access")]) "Unauthorized access").2.2
    (by omega) (by omega) rfl (by decide)

theorem c5_extract_eval :
    extractUsage
        (.obj [("individualUsage", .obj [("plan", .obj [("limit", .num 5000),
          ("breakdown", .obj [("total", .num 1250)])])])])
        sampleConfig =
      { used := none, limit := some (.fin 5000), usedPath := none,
        limitPath := some "individualUsage.plan.limit",
        raw := .obj [("individualUsage", .obj [("plan", .obj [("limit", .num 5000),
          ("breakdown", .obj [("total", .num 1250)])])])] } := by
  have hu : guessUsagePath
      (.obj [("individualUsage", .obj [("plan", .obj [("limit", .num 5000),
        ("breakdown", .obj [("total", .num 1250)])])])]) usedCandidates = none := by
    simp [guessUsagePath, guessAux, usedCandidates, objFind,
      objChildren, arrChildren, isNumeric, joinPath]
    decide
  have hl : guessUsagePath
      (.obj [("individualUsage", .obj [("plan", .obj [("limit", .num 5000),
        ("breakdown", .obj [("total", .num 1250)])])])]) limitCandidates =
      some "individualUsage.plan.limit" := by
    simp [guessUsagePath, guessAux, limitCandidates, objFind,
      objChildren, arrChildren, isNumeric, joinPath]
  have hm : findTeamMemberUsage
      (.obj [("individualUsage", .obj [("plan", .obj [("limit", .num 5000),
        ("breakdown", .obj [("total", .num 1250)])])])]) "" = none := rfl
  have hn : getNumberByPath
      (.obj [("individualUsage", .obj [("plan", .obj [("limit", .num 5000),
        ("breakdown", .obj [("total", .num 1250)])])])])
      "individualUsage.plan.limit" = some (.fin 5000) := rfl
  simp [extractUsage, sampleConfig, hu, hl, hm, hn]

/-- C5 amended: on the scenario response the code extracts `limit = 5000`
through the heuristic path `individualUsage.plan.limit`, but no used value
at all — there is no `individualUsage.plan.breakdown.total` probe and
`total` is not a used-candidate key — so the rendered status is the
`no data` state and no 25% is displayed. -/
theorem extractUsage_individualUsage_spec :
    extractUsage
        (.obj [("individualUsage", .obj [("plan", .obj [("limit", .num 5000),
          ("breakdown", .obj [("total", .num 1250)])])])])
        sampleConfig =
      { used := none, limit := some (.fin 5000), usedPath := none,
        limitPath := some "individualUsage.plan.limit",
        raw := .obj [("individualUsage", .obj [("plan", .obj [("limit", .num 5000),
          ("breakdown", .obj [("total", .num 1250)])])])] } ∧
    renderUsage
        (extractUsage
          (.obj [("individualUsage", .obj [("plan", .obj [("limit", .num 5000),
            ("breakdown", .obj [("total", .num 1250)])])])])
          sampleConfig) sampleConfig = .noData := by
  refine ⟨c5_extract_eval, ?_⟩
  rw [c5_extract_eval]
  rfl

/-- Counterexample to C5 as stated: on the scenario response extraction
yields no used value (so not 1250), and no percent is displayed. -/
theorem extractUsage_individualUsage_no_used :
    (extractUsage
        (.obj [("individualUsage", .obj [("plan", .obj [("limit", .num 5000),
          ("breakdown", .obj [("total", .num 1250)])])])])
        sampleConfig).used = none ∧
    percentShown (renderUsage
        (extractUsage
          (.obj [("individualUsage", .obj [("plan", .obj [("limit", .num 5000),
            ("breakdown", .obj [("total", .num 1250)])])])])
          sampleConfig) sampleConfig) = none := by
  rw [c5_extract_eval]
  exact ⟨rfl, rfl⟩

/-- The object scan of the search returns exactly the path of the first
matching visit among the entries it emits. -/
theorem objFind_eq_head (candidates : List String) (path : String) (d : Nat) :
    ∀ entries : List (String × Json),
      objFind (candidates.map jsToLower) path entries =
        ((entries.map fun e =>
            Visit.mk e.1 (joinPath path e.1) (d + 1) e.2).filter
          (isMatch candidates)).head?.map Visit.path := by
  intro entries
  induction entries with
  | nil => rfl
  | cons e t ih =>
    rw [objFind, List.findSome?_cons, List.map_cons, List.filter_cons]
    cases hc : ((candidates.map jsToLower).contains (jsToLower e.1) && isNumeric e.2) with
    | true =>
      simp only [isMatch, hc, if_true]
      rfl
    | false =>
      simp only [isMatch, hc, Bool.false_eq_true, if_false]
      rw [objFind] at ih
      exact ih

/-- The search returns the first matching visit of the full breadth-first
enumeration. -/
theorem guessAux_eq_enum (candidates : List String) (n : Nat) :
    ∀ qd : List (Json × String × Nat),
      qMeasure (qd.map stripDepth) ≤ n →
      guessAux (candidates.map jsToLower) (qd.map stripDepth) =
        ((enumAux qd).filter (isMatch candidates)).head?.map Visit.path := by
  induction n with
  | zero =>
    intro qd hle
    cases qd with
    | nil => simp [guessAux, enumAux]
    | cons node rest =>
      exfalso
      obtain ⟨v, p, d⟩ := node
      rw [qMeasure_cons_strip] at hle
      have := jsize_pos v
      omega
  | succ m ih =>
    intro qd hle
    cases qd with
    | nil => simp [guessAux, enumAux]
    | cons node rest =>
      obtain ⟨v, p, d⟩ := node
      rw [qMeasure_cons_strip] at hle
      rw [List.map_cons, stripDepth_mk]
      cases v with
      | arr elems =>
        simp only [guessAux, enumAux]
        rw [← stripDepth_arrChildrenD p d 0 elems, ← List.map_append]
        refine ih (rest ++ arrChildrenD p d 0 elems) ?_
        rw [List.map_append, qMeasure_append, stripDepth_arrChildrenD]
        have h2 := qMeasure_arrChildren p 0 elems
        omega
      | obj entries =>
        simp only [guessAux, enumAux]
        rw [objFind_eq_head candidates p d entries, List.filter_append]
        cases hE : ((entries.map fun e =>
            Visit.mk e.1 (joinPath p e.1) (d + 1) e.2).filter
            (isMatch candidates)) with
        | cons t ts => simp [hE]
        | nil =>
          simp only [hE, List.nil_append, Option.map_none]
          show guessAux _ (rest.map stripDepth ++ objChildren p entries) = _
          rw [← stripDepth_objChildrenD p d entries, ← List.map_append]
          refine ih (rest ++ objChildrenD p d entries) ?_
          rw [List.map_append, qMeasure_append, stripDepth_objChildrenD]
          have h2 := qMeasure_objChildren p entries
          omega
      | null =>
        simp only [guessAux, enumAux]
        exact ih rest (by simp [jsize] at hle; omega)
      | bool b =>
        simp only [guessAux, enumAux]
        exact ih rest (by simp [jsize] at hle; omega)
      | num q =>
        simp only [guessAux, enumAux]
        exact ih rest (by simp [jsize] at hle; omega)
      | str s =>
        simp only [guessAux, enumAux]
        exact ih rest (by simp [jsize] at hle; omega)

theorem pairwise_le_of_const {α : Type} (f : α → Nat) {l : List α} {c : Nat}
    (h : ∀ x ∈ l, f x = c) : l.Pairwise (fun a b => f a ≤ f b) := by
  induction l with
  | nil => exact List.Pairwise.nil
  | cons a t ih =>
    refine List.Pairwise.cons (fun b hb => ?_) (ih fun x hx => h x (List.mem_cons_of_mem _ hx))
    rw [h a (List.mem_cons_self _ _), h b (List.mem_cons_of_mem _ hb)]

theorem mem_arrChildrenD_depth (p : String) (d : Nat) :
    ∀ (i : Nat) (elems : List Json) (x : Json × String × Nat),
      x ∈ arrChildrenD p d i elems → x.2.2 = d + 1 := by
  intro i elems
  induction elems generalizing i with
  | nil => intro x hx; simp [arrChildrenD] at hx
  | cons e t ih =>
    intro x hx
    rw [arrChildrenD] at hx
    rcases List.mem_cons.mp hx with rfl | hmem
    · rfl
    · exact ih (i + 1) x hmem

theorem mem_objChildrenD_depth (p : String) (d : Nat)
    (entries : List (String × Json)) (x : Json × String × Nat)
    (hx : x ∈ objChildrenD p d entries) : x.2.2 = d + 1 := by
  obtain ⟨e, he, heq⟩ := List.mem_filterMap.mp hx
  rcases e with ⟨k, c⟩
  cases c with
  | arr es =>
    obtain rfl := Option.some.inj heq
    rfl
  | obj es =>
    obtain rfl := Option.some.inj heq
    rfl
  | null => exact absurd heq (by simp)
  | bool b => exact absurd heq (by simp)
  | num q => exact absurd heq (by simp)
  | str s => exact absurd heq (by simp)

/-- The breadth-first enumeration is sorted by nondecreasing depth, and
every emitted key is strictly deeper than some node still in the queue. -/
theorem enumAux_sorted (n : Nat) :
    ∀ qd : List (Json × String × Nat),
      qMeasure (qd.map stripDepth) ≤ n →
      List.Pairwise (fun a b => a.2.2 ≤ b.2.2) qd →
      (∀ a ∈ qd, ∀ b ∈ qd, a.2.2 ≤ b.2.2 + 1) →
      List.Pairwise (fun s t => s.depth ≤ t.depth) (enumAux qd) ∧
        ∀ t ∈ enumAux qd, ∃ node ∈ qd, node.2.2 + 1 ≤ t.depth := by
  induction n with
  | zero =>
    intro qd hle h1 h2
    cases qd with
    | nil => simp [enumAux]
    | cons node rest =>
      exfalso
      obtain ⟨v, p, d⟩ := node
      rw [qMeasure_cons_strip] at hle
      have := jsize_pos v
      omega
  | succ m ih =>
    intro qd hle h1 h2
    cases qd with
    | nil => simp [enumAux]
    | cons node rest =>
      obtain ⟨v, p, d⟩ := node
      rw [qMeasure_cons_strip] at hle
      have hrest1 : List.Pairwise (fun a b => a.2.2 ≤ b.2.2) rest := h1.of_cons
      have hhead : ∀ b ∈ rest, d ≤ b.2.2 := fun b hb => List.rel_of_pairwise_cons h1 hb
      have hwin : ∀ a ∈ rest, a.2.2 ≤ d + 1 := fun a ha =>
        h2 a (List.mem_cons_of_mem _ ha) (v, p, d) (List.mem_cons_self _ _)
      have hrest2 : ∀ a ∈ rest, ∀ b ∈ rest, a.2.2 ≤ b.2.2 + 1 := fun a ha b hb =>
        h2 a (List.mem_cons_of_mem _ ha) b (List.mem_cons_of_mem _ hb)
      cases v with
      | arr elems =>
        simp only [enumAux]
        have hcd : ∀ x ∈ arrChildrenD p d 0 elems, x.2.2 = d + 1 :=
          fun x hx => mem_arrChildrenD_depth p d 0 elems x hx
        have hq1 : List.Pairwise (fun a b => a.2.2 ≤ b.2.2)
            (rest ++ arrChildrenD p d 0 elems) := by
          rw [List.pairwise_append]
          exact ⟨hrest1, pairwise_le_of_const _ hcd,
            fun a ha b hb => by rw [hcd b hb]; exact hwin a ha⟩
        have hq2 : ∀ a ∈ rest ++ arrChildrenD p d 0 elems,
            ∀ b ∈ rest ++ arrChildrenD p d 0 elems, a.2.2 ≤ b.2.2 + 1 := by
          intro a ha b hb
          rcases List.mem_append.mp ha with ha | ha <;>
            rcases List.mem_append.mp hb with hb | hb
          · exact hrest2 a ha b hb
          · rw [hcd b hb]; have := hwin a ha; omega
          · rw [hcd a ha]; have := hhead b hb; omega
          · rw [hcd a ha, hcd b hb]; omega
        have hmeas : qMeasure ((rest ++ arrChildrenD p d 0 elems).map stripDepth) ≤ m := by
          rw [List.map_append, qMeasure_append, stripDepth_arrChildrenD]
          have h2m := qMeasure_arrChildren p 0 elems
          omega
        obtain ⟨c1, c2⟩ := ih _ hmeas hq1 hq2
        refine ⟨c1, fun t ht => ?_⟩
        obtain ⟨nd, hnd, hdep⟩ := c2 t ht
        rcases List.mem_append.mp hnd with hn | hn
        · exact ⟨nd, List.mem_cons_of_mem _ hn, hdep⟩
        · refine ⟨(Json.arr elems, p, d), List.mem_cons_self _ _, ?_⟩
          show d + 1 ≤ t.depth
          have := hcd nd hn
          omega
      | obj entries =>
        simp only [enumAux]
        have hcd : ∀ x ∈ objChildrenD p d entries, x.2.2 = d + 1 :=
          fun x hx => mem_objChildrenD_depth p d entries x hx
        have hq1 : List.Pairwise (fun a b => a.2.2 ≤ b.2.2)
            (rest ++ objChildrenD p d entries) := by
          rw [List.pairwise_append]
          exact ⟨hrest1, pairwise_le_of_const _ hcd,
            fun a ha b hb => by rw [hcd b hb]; exact hwin a ha⟩
        have hq2 : ∀ a ∈ rest ++ objChildrenD p d entries,
            ∀ b ∈ rest ++ objChildrenD p d entries, a.2.2 ≤ b.2.2 + 1 := by
          intro a ha b hb
          rcases List.mem_append.mp ha with ha | ha <;>
            rcases List.mem_append.mp hb with hb | hb
          · exact hrest2 a ha b hb
          · rw [hcd b hb]; have := hwin a ha; omega
          · rw [hcd a ha]; have := hhead b hb; omega
          · rw [hcd a ha, hcd b hb]; omega
        have hmeas : qMeasure ((rest ++ objChildrenD p d entries).map stripDepth) ≤ m := by
          rw [List.map_append, qMeasure_append, stripDepth_objChildrenD]
          have h2m := qMeasure_objChildren p entries
          omega
        obtain ⟨c1, c2⟩ := ih _ hmeas hq1 hq2
        have hemit : ∀ t ∈ (entries.map fun e =>
            Visit.mk e.1 (joinPath p e.1) (d + 1) e.2), t.depth = d + 1 := by
          intro t ht
          obtain ⟨e, he, rfl⟩ := List.mem_map.mp ht
          rfl
        constructor
        · rw [List.pairwise_append]
          refine ⟨pairwise_le_of_const _ hemit, c1, fun a ha b hb => ?_⟩
          obtain ⟨nd, hnd, hdep⟩ := c2 b hb
          have hnd2 : d ≤ nd.2.2 := by
            rcases List.mem_append.mp hnd with hn | hn
            · exact hhead nd hn
            · rw [hcd nd hn]; omega
          rw [hemit a ha]
          omega
        · intro t ht
          rcases List.mem_append.mp ht with ht | ht
          · refine ⟨(Json.obj entries, p, d), List.mem_cons_self _ _, ?_⟩
            show d + 1 ≤ t.depth
            rw [hemit t ht]
          · obtain ⟨nd, hnd, hdep⟩ := c2 t ht
            rcases List.mem_append.mp hnd with hn | hn
            · exact ⟨nd, List.mem_cons_of_mem _ hn, hdep⟩
            · refine ⟨(Json.obj entries, p, d), List.mem_cons_self _ _, ?_⟩
              show d + 1 ≤ t.depth
              have := hcd nd hn
              omega
      | null =>
        simp only [enumAux]
        obtain ⟨c1, c2⟩ := ih rest (by simp [jsize] at hle; omega) hrest1 hrest2
        exact ⟨c1, fun t ht => (c2 t ht).imp
          fun nd hn => ⟨List.mem_cons_of_mem _ hn.1, hn.2⟩⟩
      | bool b =>
        simp only [enumAux]
        obtain ⟨c1, c2⟩ := ih rest (by simp [jsize] at hle; omega) hrest1 hrest2
        exact ⟨c1, fun t ht => (c2 t ht).imp
          fun nd hn => ⟨List.mem_cons_of_mem _ hn.1, hn.2⟩⟩
      | num q =>
        simp only [enumAux]
        obtain ⟨c1, c2⟩ := ih rest (by simp [jsize] at hle; omega) hrest1 hrest2
        exact ⟨c1, fun t ht => (c2 t ht).imp
          fun nd hn => ⟨List.mem_cons_of_mem _ hn.1, hn.2⟩⟩
      | str s =>
        simp only [enumAux]
        obtain ⟨c1, c2⟩ := ih rest (by simp [jsize] at hle; omega) hrest1 hrest2
        exact ⟨c1, fun t ht => (c2 t ht).imp
          fun nd hn => ⟨List.mem_cons_of_mem _ hn.1, hn.2⟩⟩

theorem hasNumericKey_arr_iff (keys : List String) :
    ∀ elems : List Json, hasNumericKey keys (.arr elems) = false ↔
      ∀ e ∈ elems, hasNumericKey keys e = false := by
  intro elems
  induction elems with
  | nil => simp [hasNumericKey]
  | cons e t ih =>
    rw [hasNumericKey]
    simp only [Bool.or_eq_false_iff]
    rw [ih]
    constructor
    · rintro ⟨h1, h2⟩ x hx
      rcases List.mem_cons.mp hx with rfl | hx
      · exact h1
      · exact h2 x hx
    · intro h
      exact ⟨h e (List.mem_cons_self _ _),
        fun x hx => h x (List.mem_cons_of_mem _ hx)⟩

theorem hasNumericKey_obj_iff (keys : List String) :
    ∀ entries : List (String × Json), hasNumericKey keys (.obj entries) = false ↔
      ∀ e ∈ entries, (keys.contains (jsToLower e.1) && isNumeric e.2) = false ∧
        hasNumericKey keys e.2 = false := by
  intro entries
  induction entries with
  | nil => simp [hasNumericKey]
  | cons e t ih =>
    obtain ⟨k, c⟩ := e
    rw [hasNumericKey]
    simp only [Bool.or_eq_false_iff]
    rw [ih]
    constructor
    · rintro ⟨⟨h1, h2⟩, h3⟩ x hx
      rcases List.mem_cons.mp hx with rfl | hx
      · exact ⟨h1, h2⟩
      · exact h3 x hx
    · intro h
      obtain ⟨h1, h2⟩ := h (k, c) (List.mem_cons_self _ _)
      exact ⟨⟨h1, h2⟩, fun x hx => h x (List.mem_cons_of_mem _ hx)⟩

theorem arrChildrenD_has_iff (keys : List String) (p : String) (d : Nat) :
    ∀ (i : Nat) (elems : List Json),
      (∀ x ∈ arrChildrenD p d i elems, hasNumericKey keys x.1 = false) ↔
        ∀ e ∈ elems, hasNumericKey keys e = false := by
  intro i elems
  induction elems generalizing i with
  | nil => simp [arrChildrenD]
  | cons e t ih =>
    rw [arrChildrenD]
    constructor
    · intro h x hx
      rcases List.mem_cons.mp hx with rfl | hx
      · exact h (x, joinPath p (toString i), d + 1) (List.mem_cons_self _ _)
      · exact (ih (i + 1)).mp
          (fun y hy => h y (List.mem_cons_of_mem _ hy)) x hx
    · intro h x hx
      rcases List.mem_cons.mp hx with rfl | hx
      · exact h e (List.mem_cons_self _ _)
      · exact (ih (i + 1)).mpr
          (fun y hy => h y (List.mem_cons_of_mem _ hy)) x hx

theorem objChildrenD_has_iff (keys : List String) (p : String) (d : Nat) :
    ∀ entries : List (String × Json),
      (∀ x ∈ objChildrenD p d entries, hasNumericKey keys x.1 = false) ↔
        ∀ e ∈ entries, hasNumericKey keys e.2 = false := by
  intro entries
  induction entries with
  | nil => simp [objChildrenD]
  | cons e t ih =>
    obtain ⟨k, c⟩ := e
    constructor
    · intro h x hx
      rcases List.mem_cons.mp hx with rfl | hx
      · show hasNumericKey keys c = false
        cases c with
        | arr es =>
          refine h (Json.arr es, joinPath p k, d + 1) ?_
          simp [objChildrenD, List.filterMap_cons]
        | obj es =>
          refine h (Json.obj es, joinPath p k, d + 1) ?_
          simp [objChildrenD, List.filterMap_cons]
        | null => simp [hasNumericKey]
        | bool b => simp [hasNumericKey]
        | num q => simp [hasNumericKey]
        | str s => simp [hasNumericKey]
      · refine (ih.mp fun y hy => h y ?_) x hx
        cases c with
        | arr es =>
          simp only [objChildrenD, List.filterMap_cons]
          exact List.mem_cons_of_mem _ hy
        | obj es =>
          simp only [objChildrenD, List.filterMap_cons]
          exact List.mem_cons_of_mem _ hy
        | null => exact hy
        | bool b => exact hy
        | num q => exact hy
        | str s => exact hy
    · intro h x hx
      have tail : ∀ y ∈ objChildrenD p d t, hasNumericKey keys y.1 = false :=
        ih.mpr fun e he => h e (List.mem_cons_of_mem _ he)
      cases c with
      | arr es =>
        simp only [objChildrenD, List.filterMap_cons] at hx
        rcases List.mem_cons.mp hx with rfl | hx
        · exact h (k, Json.arr es) (List.mem_cons_self _ _)
        · exact tail x hx
      | obj es =>
        simp only [objChildrenD, List.filterMap_cons] at hx
        rcases List.mem_cons.mp hx with rfl | hx
        · exact h (k, Json.obj es) (List.mem_cons_self _ _)
        · exact tail x hx
      | null => exact tail x hx
      | bool b => exact tail x hx
      | num q => exact tail x hx
      | str s => exact tail x hx

theorem enum_filter_nil_iff (candidates : List String) (n : Nat) :
    ∀ qd : List (Json × String × Nat),
      qMeasure (qd.map stripDepth) ≤ n →
      ((enumAux qd).filter (isMatch candidates) = [] ↔
        ∀ node ∈ qd, hasNumericKey (candidates.map jsToLower) node.1 = false) := by
  induction n with
  | zero =>
    intro qd hle
    cases qd with
    | nil => simp [enumAux]
    | cons node rest =>
      exfalso
      obtain ⟨v, p, d⟩ := node
      rw [qMeasure_cons_strip] at hle
      have := jsize_pos v
      omega
  | succ m ih =>
    intro qd hle
    cases qd with
    | nil => simp [enumAux]
    | cons node rest =>
      obtain ⟨v, p, d⟩ := node
      rw [qMeasure_cons_strip] at hle
      cases v with
      | arr elems =>
        simp only [enumAux]
        have hmeas : qMeasure ((rest ++ arrChildrenD p d 0 elems).map stripDepth) ≤ m := by
          rw [List.map_append, qMeasure_append, stripDepth_arrChildrenD]
          have h2m := qMeasure_arrChildren p 0 elems
          omega
        rw [ih (rest ++ arrChildrenD p d 0 elems) hmeas]
        constructor
        · intro h x hx
          rcases List.mem_cons.mp hx with rfl | hx
          · show hasNumericKey (candidates.map jsToLower) (Json.arr elems) = false
            rw [hasNumericKey_arr_iff]
            refine (arrChildrenD_has_iff (candidates.map jsToLower) p d 0 elems).mp ?_
            intro y hy
            exact h y (List.mem_append_right _ hy)
          · exact h x (List.mem_append_left _ hx)
        · intro h x hx
          rcases List.mem_append.mp hx with hx | hx
          · exact h x (List.mem_cons_of_mem _ hx)
          · have hh := h (Json.arr elems, p, d) (List.mem_cons_self _ _)
            rw [show (Json.arr elems, p, d).1 = Json.arr elems from rfl,
              hasNumericKey_arr_iff] at hh
            exact (arrChildrenD_has_iff (candidates.map jsToLower) p d 0 elems).mpr
              hh x hx
      | obj entries =>
        simp only [enumAux]
        have hmeas : qMeasure ((rest ++ objChildrenD p d entries).map stripDepth) ≤ m := by
          rw [List.map_append, qMeasure_append, stripDepth_objChildrenD]
          have h2m := qMeasure_objChildren p entries
          omega
        rw [List.filter_append, List.append_eq_nil,
          ih (rest ++ objChildrenD p d entries) hmeas, List.filter_eq_nil_iff]
        constructor
        · rintro ⟨h1, h2⟩ x hx
          rcases List.mem_cons.mp hx with rfl | hx
          · show hasNumericKey (candidates.map jsToLower) (Json.obj entries) = false
            rw [hasNumericKey_obj_iff]
            intro e he
            constructor
            · have := h1 (Visit.mk e.1 (joinPath p e.1) (d + 1) e.2)
                (List.mem_map.mpr ⟨e, he, rfl⟩)
              simpa [isMatch] using this
            · exact (objChildrenD_has_iff (candidates.map jsToLower) p d entries).mp
                (fun y hy => h2 y (List.mem_append_right _ hy)) e he
          · exact h2 x (List.mem_append_left _ hx)
        · intro h
          have hh := h (Json.obj entries, p, d) (List.mem_cons_self _ _)
          rw [show (Json.obj entries, p, d).1 = Json.obj entries from rfl,
            hasNumericKey_obj_iff] at hh
          constructor
          · intro t ht
            obtain ⟨e, he, rfl⟩ := List.mem_map.mp ht
            intro hcontra
            have hb : ((List.map jsToLower candidates).contains (jsToLower e.1) &&
                isNumeric e.2) = true := hcontra
            rw [(hh e he).1] at hb
            exact Bool.false_ne_true hb
          · intro x hx
            rcases List.mem_append.mp hx with hx | hx
            · exact h x (List.mem_cons_of_mem _ hx)
            · exact (objChildrenD_has_iff (candidates.map jsToLower) p d entries).mpr
                (fun e he => (hh e he).2) x hx
      | null =>
        simp only [enumAux]
        rw [ih rest (by simp [jsize] at hle; omega)]
        constructor
        · intro h x hx
          rcases List.mem_cons.mp hx with rfl | hx
          · simp [hasNumericKey]
          · exact h x hx
        · intro h x hx
          exact h x (List.mem_cons_of_mem _ hx)
      | bool b =>
        simp only [enumAux]
        rw [ih rest (by simp [jsize] at hle; omega)]
        constructor
        · intro h x hx
          rcases List.mem_cons.mp hx with rfl | hx
          · simp [hasNumericKey]
          · exact h x hx
        · intro h x hx
          exact h x (List.mem_cons_of_mem _ hx)
      | num q =>
        simp only [enumAux]
        rw [ih rest (by simp [jsize] at hle; omega)]
        constructor
        · intro h x hx
          rcases List.mem_cons.mp hx with rfl | hx
          · simp [hasNumericKey]
          · exact h x hx
        · intro h x hx
          exact h x (List.mem_cons_of_mem _ hx)
      | str s =>
        simp only [enumAux]
        rw [ih rest (by simp [jsize] at hle; omega)]
        constructor
        · intro h x hx
          rcases List.mem_cons.mp hx with rfl | hx
          · simp [hasNumericKey]
          · exact h x hx
        · intro h x hx
          exact h x (List.mem_cons_of_mem _ hx)

/-- C2: the heuristic path search returns exactly the path of the first
matching key of the breadth-first enumeration of the document (a key whose
lowercase name is among the lowercased candidates and whose value is
numeric); that enumeration is ordered by nondecreasing depth, so the
shallowest matching key wins and ties at equal depth are broken by
object/array enumeration order; and the search returns `none` exactly when
no such key exists anywhere in the document. -/
theorem guessUsagePath_bfs_spec (data : Json) (candidates : List String) :
    (guessUsagePath data candidates =
      ((bfsVisits data).filter (isMatch candidates)).head?.map Visit.path) ∧
    List.Pairwise (fun s t => s.depth ≤ t.depth) (bfsVisits data) ∧
    (guessUsagePath data candidates = none ↔
      hasNumericKey (candidates.map jsToLower) data = false) := by
  have h1 : guessUsagePath data candidates =
      ((enumAux [(data, "", 0)]).filter (isMatch candidates)).head?.map Visit.path :=
    guessAux_eq_enum candidates (qMeasure ([(data, "", 0)].map stripDepth))
      [(data, "", 0)] le_rfl
  refine ⟨h1, ?_, ?_⟩
  · exact (enumAux_sorted (qMeasure ([(data, "", 0)].map stripDepth))
      [(data, "", 0)] le_rfl (by simp)
      (by intro a ha b hb; simp at ha hb; subst ha; subst hb; omega)).1
  · have hiff := enum_filter_nil_iff candidates
      (qMeasure ([(data, "", 0)].map stripDepth)) [(data, "", 0)] le_rfl
    rw [h1]
    constructor
    · intro h
      have hnil : (enumAux [(data, "", 0)]).filter (isMatch candidates) = [] := by
        rcases hh : (enumAux [(data, "", 0)]).filter (isMatch candidates)
          with _ | ⟨t, ts⟩
        · rfl
        · rw [hh] at h
          simp at h
      exact hiff.mp hnil (data, "", 0) (List.mem_cons_self _ _)
    · intro h
      have hnil : (enumAux [(data, "", 0)]).filter (isMatch candidates) = [] := by
        refine hiff.mpr ?_
        intro node hn
        rcases List.mem_cons.mp hn with rfl | h0
        · exact h
        · simp at h0
      rw [hnil]
      rfl

end CursorUsage
